import Mathlib

/-!
Verification of the CodePush Windows update-package lifecycle manager
(`FileUtils.cpp`, `CodePushUpdateUtils.cpp`, `CodePushPackage.cpp`).

Modelling conventions:
* `wchar_t` is modelled as `Nat` (UTF-16 code unit value); a wide string is a
  `List Nat`.  Character codes appearing below: 32 `' '`, 34 `'"'`, 42 `'*'`,
  46 `'.'`, 47 `'/'`, 58 `':'`, 60 `'<'`, 62 `'>'`, 63 `'?'`, 92 `'\'`,
  95 `'_'`, 124 `'|'`.
* `::towupper` / `_wcsicmp` are modelled with the ASCII upper/lower maps
  (the reserved-name and marker-name comparisons only involve ASCII).
* Filesystem folders are modelled as lists of named entries; asynchronous
  WinRT operations are modelled as pure state transformations, with
  per-entry failures modelled by `Option`.
-/

/-- Code points of the characters rejected by `IsInvalidChar`
(`< > : " / \ | ? *`). -/
def invalidCharList : List Nat := [60, 62, 58, 34, 47, 92, 124, 63, 42]

/-- `IsInvalidChar` from FileUtils.cpp: the nine reserved punctuation
characters, and any control character (code point < 0x20). -/
def isInvalidChar (c : Nat) : Bool :=
  decide (c ∈ invalidCharList) || decide (c < 32)

/-- `ReplaceInvalidChars`: every invalid character becomes `'_'` (95). -/
def replaceInvalidChars (s : List Nat) : List Nat :=
  s.map (fun c => if isInvalidChar c then 95 else c)

/-- Trailing-trim predicate: `'.'` (46) or `' '` (32). -/
def isDotOrSpace (c : Nat) : Bool := decide (c = 46) || decide (c = 32)

/-- `TrimTrailingDotsAndSpaces`: repeatedly pop trailing `'.'` and `' '`. -/
def trimTrailingDotsAndSpaces (s : List Nat) : List Nat :=
  (s.reverse.dropWhile isDotOrSpace).reverse

/-- ASCII model of `::towupper`: lowercase letters map to uppercase. -/
def towupper (c : Nat) : Nat := if 97 ≤ c ∧ c ≤ 122 then c - 32 else c

/-- ASCII model of `towlower` (used by `_wcsicmp`). -/
def towlower (c : Nat) : Nat := if 65 ≤ c ∧ c ≤ 90 then c + 32 else c

/-- The reserved device names from `IsReservedDeviceName`:
CON, PRN, AUX, NUL, COM1–COM9, LPT1–LPT9 (as uppercase code points). -/
def reservedDeviceNames : List (List Nat) :=
  [[67, 79, 78],            -- CON
   [80, 82, 78],            -- PRN
   [65, 85, 88],            -- AUX
   [78, 85, 76],            -- NUL
   [67, 79, 77, 49], [67, 79, 77, 50], [67, 79, 77, 51],   -- COM1..COM3
   [67, 79, 77, 52], [67, 79, 77, 53], [67, 79, 77, 54],   -- COM4..COM6
   [67, 79, 77, 55], [67, 79, 77, 56], [67, 79, 77, 57],   -- COM7..COM9
   [76, 80, 84, 49], [76, 80, 84, 50], [76, 80, 84, 51],   -- LPT1..LPT3
   [76, 80, 84, 52], [76, 80, 84, 53], [76, 80, 84, 54],   -- LPT4..LPT6
   [76, 80, 84, 55], [76, 80, 84, 56], [76, 80, 84, 57]]   -- LPT7..LPT9

/-- `IsReservedDeviceName`: membership in the reserved list. -/
def isReservedDeviceName (nameNoExtUpper : List Nat) : Bool :=
  reservedDeviceNames.any (fun r => decide (nameNoExtUpper = r))

/-- Index of the last `'.'` in a string (`find_last_of(L'.')`). -/
def lastDotIndex : List Nat → Option Nat
  | [] => none
  | c :: rest =>
    match lastDotIndex rest with
    | some i => some (i + 1)
    | none => if c = 46 then some 0 else none

/-- The segment with its final extension removed
(`substr(0, find_last_of('.'))`, or the whole segment when it has no dot). -/
def nameWithoutExt (s : List Nat) : List Nat :=
  match lastDotIndex s with
  | some i => s.take i
  | none => s

/-- Whether a segment (after upper-casing its extension-less name) is a
reserved device name — the test applied at FileUtils.cpp:99. -/
def isReservedSegment (s : List Nat) : Bool :=
  isReservedDeviceName ((nameWithoutExt s).map towupper)

/-- `kMaxSegmentLen` from `SanitizeSegment`. -/
def kMaxSegmentLen : Nat := 240

/-- The reserved-name fix of FileUtils.cpp:100-103: a reserved segment is
prefixed with `'_'`. -/
def reservedFix (s : List Nat) : List Nat :=
  if isReservedSegment s then 95 :: s else s

/-- `SanitizeSegment` from FileUtils.cpp:83-115.  `none` models the
`return false` ("skip this segment") outcome; `some out` models
`return true` with `seg` rewritten to `out`. -/
def sanitizeSegment (seg : List Nat) : Option (List Nat) :=
  if seg = [] then none
  else
    let s2 := trimTrailingDotsAndSpaces (replaceInvalidChars seg)
    if s2 = [] ∨ s2 = [46] ∨ s2 = [46, 46] then none
    else
      let s3 := reservedFix s2
      if kMaxSegmentLen < s3.length then
        let s4 := trimTrailingDotsAndSpaces (s3.take kMaxSegmentLen)
        if s4 = [] then none else some s4
      else some s3

example : sanitizeSegment [67, 79, 78] = some [95, 67, 79, 78] := by decide

example : sanitizeSegment [97, 46, 46] = some [97] := by decide

example : sanitizeSegment [46, 46] = none := by decide

example : sanitizeSegment [97, 47, 98] = some [97, 95, 98] := by decide

/-! ### `FileUtils::CreateFileFromPathAsync` (FileUtils.cpp:150-188)

The relative path is decomposed into its directory segments (in root-to-leaf
order, the order in which the `utf8Parts` stack is popped) and its final
file-name segment.  Each directory segment is sanitized; a rejected one is
skipped (`continue`) so the chain of created folders simply omits it.  A
rejected file-name segment raises `E_INVALIDARG`
("ZIP entry has invalid file name"), modelled as `none`. -/

/-- The folder chain actually created by the `while (utf8Parts.size() > 1)`
loop: the sanitized survivors of the directory segments, in order. -/
def walkFolders : List (List Nat) → List (List Nat)
  | [] => []
  | seg :: rest =>
    match sanitizeSegment seg with
    | none => walkFolders rest
    | some seg2 => seg2 :: walkFolders rest

/-- `CreateFileFromPathAsync`: returns the created folder chain and the
sanitized file name, or `none` when the final segment is rejected. -/
def createFileFromPath (dirSegs : List (List Nat)) (fileSeg : List Nat) :
    Option (List (List Nat) × List Nat) :=
  match sanitizeSegment fileSeg with
  | none => none
  | some f => some (walkFolders dirSegs, f)

/-! ### `FileUtils::UnzipAsync` (FileUtils.cpp:272-385)

One archive entry carries exactly the observations the loop body makes of
it: whether `mz_zip_reader_file_stat` succeeds, whether the entry is a
directory, its (UTF-16) name, its declared uncompressed size, whether
`mz_zip_reader_extract_to_heap` succeeds (in which case it yields
`m_uncomp_size` bytes), and whether the file write completes without
throwing. -/

structure ZipEntry where
  statOk : Bool
  isDirectory : Bool
  name : List Nat
  uncompSize : Nat
  extractOk : Bool
  writeOk : Bool
deriving DecidableEq, Repr

/-- `kMaxEntryBytes` = 200 MB per file (FileUtils.cpp:302). -/
def kMaxEntryBytes : Nat := 200 * 1024 * 1024

/-- `kMaxTotalBytes` = 1 GB per zip (FileUtils.cpp:303). -/
def kMaxTotalBytes : Nat := 1024 * 1024 * 1024

/-- The checks performed on an entry before the size rails
(FileUtils.cpp:309-322): stat must succeed, directories are skipped, the
name must be non-empty and must not start with `'/'` or be `.` / `..`. -/
def entryPassesPreChecks (e : ZipEntry) : Bool :=
  e.statOk && !e.isDirectory && !(decide (e.name = [])) &&
    !(decide (e.name.headD 0 = 47) || decide (e.name = [46]) ||
      decide (e.name = [46, 46]))

/-- The extraction loop of `UnzipAsync` (FileUtils.cpp:306-380), started
with running total `totalOut`.  Returns the list of entries whose file was
written, and the final `totalOut`.  `continue` is modelled by recursing on
the remaining entries; the total-size `break` returns immediately. -/
def unzipLoop : List ZipEntry → Nat → List ZipEntry × Nat
  | [], totalOut => ([], totalOut)
  | e :: rest, totalOut =>
    if entryPassesPreChecks e = false then unzipLoop rest totalOut
    else if kMaxEntryBytes < e.uncompSize then unzipLoop rest totalOut
    else if kMaxTotalBytes < totalOut + e.uncompSize then ([], totalOut)
    else if e.extractOk = false then unzipLoop rest totalOut
    else if e.writeOk = true then
      let r := unzipLoop rest (totalOut + e.uncompSize)
      (e :: r.1, r.2)
    else unzipLoop rest totalOut

/-- `UnzipAsync` processes the archive's entries with `totalOut = 0`. -/
def unzipAsync (entries : List ZipEntry) : List ZipEntry × Nat :=
  unzipLoop entries 0

/-! ### Folder trees, `MaybeStripTopCodePushAsync` and
`CodePushUpdateUtils::CopyEntriesInFolderAsync`
(CodePushUpdateUtils.cpp:31-168)

A folder's contents are a list of entries; each entry is a file (with an
abstract content tag) or a sub-folder.  Names inside one folder are unique
(a filesystem directory); name lookup (`TryGetItemAsync`) matches exactly. -/

inductive Entry where
  | file (name : List Nat) (content : Nat)
  | dir (name : List Nat) (children : List Entry)

/-- The name of a folder entry. -/
def Entry.name : Entry → List Nat
  | .file n _ => n
  | .dir n _ => n

/-- The names of a folder's immediate children. -/
def entryNames (es : List Entry) : List (List Nat) := es.map Entry.name

/-- `TryGetItemAsync`: the entry with the given name, if any. -/
def getItem (es : List Entry) (n : List Nat) : Option Entry :=
  es.find? (fun e => decide (e.name = n))

/-- `DeleteAsync` on the item with the given name. -/
def removeItem (es : List Entry) (n : List Nat) : List Entry :=
  es.filter (fun e => !(decide (e.name = n)))

/-- Case-insensitive wide-string equality, the `_wcsicmp(..) == 0` test. -/
def wcsicmpEq (a b : List Nat) : Bool :=
  decide (a.map towlower = b.map towlower)

/-- Code points of the manifest-folder marker name `CodePush`. -/
def codePushName : List Nat := [67, 111, 100, 101, 80, 117, 115, 104]

/-- The condition of `MaybeStripTopCodePushAsync`
(CodePushUpdateUtils.cpp:103-117): the source root holds exactly one item,
that item is a folder, and `_wcsicmp` finds its name equal to `CodePush`. -/
def maybeStripDescends : List Entry → Bool
  | [Entry.dir n _] => wcsicmpEq n codePushName
  | _ => false

/-- `MaybeStripTopCodePushAsync`: the folder contents copying actually
starts from (the sole `CodePush` child's contents, or the root itself). -/
def maybeStripTopCodePush (es : List Entry) : List Entry :=
  match es with
  | [Entry.dir n cs] => if wcsicmpEq n codePushName then cs else es
  | _ => es

/-- The deep file query (`FolderDepth::Deep`): every file below the root as
(relative directory segments, file name, content), depth-first. -/
def filesOfEntry : Entry → List (List (List Nat) × List Nat × Nat)
  | .file n c => [([], n, c)]
  | .dir n cs => (filesOfList cs).map (fun t => (n :: t.1, t.2))
where
  filesOfList : List Entry → List (List (List Nat) × List Nat × Nat)
    | [] => []
    | e :: rest => filesOfEntry e ++ filesOfList rest

/-- All files below a folder, with relative directory segments. -/
def filesOfFolder (es : List Entry) : List (List (List Nat) × List Nat × Nat) :=
  filesOfEntry.filesOfList es

/-- Replace the children of the sub-folder named `n`. -/
def setDirChildren (es : List Entry) (n : List Nat) (cs : List Entry) :
    List Entry :=
  es.map (fun e => if e.name = n then Entry.dir n cs else e)

/-- `CreateFileAsync(name, ReplaceExisting)`: replaces an existing file of
that name, creates the file otherwise; fails (`none`) when a folder of that
name is in the way. -/
def setFile (es : List Entry) (n : List Nat) (c : Nat) : Option (List Entry) :=
  match getItem es n with
  | some (.dir _ _) => none
  | some (.file _ _) =>
    some (es.map (fun e => if e.name = n then Entry.file n c else e))
  | none => some (es ++ [Entry.file n c])

/-- `EnsureFolderChainAsync` (CodePushUpdateUtils.cpp:48-60) combined with
the final `CreateFileAsync` of `CopyFileEntryAsync`: walk `segs` creating
folders with open-if-exists semantics — an empty segment is skipped, a `.`
or `..` segment stops the walk at the current folder — then write the file
there.  `none` models a thrown (and later caught) per-file failure. -/
def putFileAt (es : List Entry) (segs : List (List Nat)) (n : List Nat)
    (c : Nat) : Option (List Entry) :=
  match segs with
  | [] => setFile es n c
  | s :: rest =>
    if s = [] then putFileAt es rest n c
    else if s = [46] ∨ s = [46, 46] then setFile es n c
    else
      match getItem es s with
      | some (.dir _ cs) =>
        (putFileAt cs rest n c).map (fun cs2 => setDirChildren es s cs2)
      | some (.file _ _) => none
      | none =>
        (putFileAt [] rest n c).map (fun cs2 => es ++ [Entry.dir s cs2])

/-- `CopyFileEntryAsync` as invoked from the copy loop: a per-file failure
is caught (CodePushUpdateUtils.cpp:156-164) and leaves the destination as
it was. -/
def copyFileEntry (dest : List Entry) (t : List (List Nat) × List Nat × Nat) :
    List Entry :=
  match putFileAt dest t.1 t.2.1 t.2.2 with
  | some d => d
  | none => dest

/-- `CodePushUpdateUtils::CopyEntriesInFolderAsync`
(CodePushUpdateUtils.cpp:122-168): strip a sole top-level `CodePush`
wrapper, then copy every file, preserving relative paths, into `dest`. -/
def copyEntriesInFolder (src dest : List Entry) : List Entry :=
  (filesOfFolder (maybeStripTopCodePush src)).foldl copyFileEntry dest

/-! ### The diff-overlay flow of `CodePushPackage::DownloadPackageAsync`
(CodePushPackage.cpp:74-122), for the case where a previous installed
package exists.

The freshly created `newUpdateFolder` is seeded with the current package,
the manifest's `deletedFiles` are deleted from it (each via
`TryGetItemAsync` + `DeleteAsync`), the manifest file is deleted from the
unzip folder, and the unzip folder is overlaid on top.  `manifestName` is
the `DiffManifestFileName` constant (declared in CodePushPackage.h, not
part of these sources). -/
def deleteIfPresent (f : List Entry) (n : List Nat) : List Entry :=
  match getItem f n with
  | some _ => removeItem f n
  | none => f

def downloadDiffApply (currentPkg unzipFolder : List Entry)
    (manifestName : List Nat) (deletedFiles : List (List Nat)) :
    List Entry :=
  let seeded := copyEntriesInFolder currentPkg []
  let afterDel := deletedFiles.foldl deleteIfPresent seeded
  let unzipCleaned := removeItem unzipFolder manifestName
  copyEntriesInFolder unzipCleaned afterDel

/-- Whether an entry is a plain file. -/
def Entry.isFile : Entry → Bool
  | .file _ _ => true
  | .dir _ _ => false

/-- A flat folder: every immediate child is a plain file. -/
def isFlatFolder (es : List Entry) : Bool := es.all Entry.isFile

/-! ### The package metadata store (CodePushPackage.cpp:193-379)

The persisted `StatusFile` holds a JSON object with the optional string
keys `currentPackage` and `previousPackage`; it is modelled as
`PackageInfo`, where `none` is an absent key and `some []` an empty-string
value.  `JsonObject::Insert` of a *present* `TryLookup` result is
modelled as assigning that value to the field and `JsonObject::Remove`
of a *present* key as clearing it; per the WinRT `IMap` contract,
`Remove` of an absent key throws `E_BOUNDS` (and `Insert` of a null
`IJsonValue` cannot leave its key absent), which `RollbackPackage`'s
model below surfaces as a faulting completion.

A `Store` is the CodePush root folder's state: the `StatusFile` (absent,
or present with content that either fails `JsonObject::TryParse` —
`some none` — or parses to a record) and the names of the hash-named
package folders under the root. -/

structure PackageInfo where
  currentPackage : Option (List Nat)
  previousPackage : Option (List Nat)
deriving DecidableEq, Repr

structure Store where
  statusFile : Option (Option PackageInfo)
  folders : List (List Nat)
deriving DecidableEq, Repr

/-- `GetCurrentPackageInfoAsync` (CodePushPackage.cpp:242-259): a missing
StatusFile yields an empty `JsonObject`; content that does not parse
yields `nullptr` (modelled `none`). -/
def getCurrentPackageInfo (s : Store) : Option PackageInfo :=
  match s.statusFile with
  | none => some ⟨none, none⟩
  | some none => none
  | some (some info) => some info

/-- `GetCurrentPackageHashAsync` (CodePushPackage.cpp:234-240): `""` when
the record is `nullptr` or has no `currentPackage` key. -/
def getCurrentPackageHash (s : Store) : List Nat :=
  match getCurrentPackageInfo s with
  | none => []
  | some info =>
    match info.currentPackage with
    | some h => h
    | none => []

/-- `GetPreviousPackageHashAsync` (CodePushPackage.cpp:268-274). -/
def getPreviousPackageHash (s : Store) : List Nat :=
  match getCurrentPackageInfo s with
  | none => []
  | some info =>
    match info.previousPackage with
    | some h => h
    | none => []

/-- `GetCurrentPackageFolderAsync` (CodePushPackage.cpp:222-232), reduced
to the folder's name: `none` when the record is `nullptr`, the hash is
empty, or no folder of that name exists. -/
def getCurrentPackageFolderName (s : Store) : Option (List Nat) :=
  match getCurrentPackageInfo s with
  | none => none
  | some info =>
    let h := info.currentPackage.getD []
    if h = [] then none
    else if h ∈ s.folders then some h else none

/-- `DeleteAsync` on a package folder: the name disappears from the root. -/
def deleteFolder (folders : List (List Nat)) (h : List Nat) :
    List (List Nat) :=
  folders.filter (fun n => !(decide (n = h)))

/-- `CodePushPackage::InstallPackageAsync` (CodePushPackage.cpp:296-336).
Returns the `co_return`ed boolean and the resulting store state; the write
of the updated record is the single `UpdateCurrentPackageInfoAsync` call
at the end. -/
def installPackage (s : Store) (packageHash : List Nat)
    (removePendingUpdate : Bool) : Bool × Store :=
  match getCurrentPackageInfo s with
  | none => (false, s)
  | some info =>
    if info.currentPackage = some packageHash then (true, s)
    else
      let step :=
        if removePendingUpdate then
          let folders2 :=
            match getCurrentPackageFolderName s with
            | some h => deleteFolder s.folders h
            | none => s.folders
          (folders2, info)
        else
          let previousPackageHash := getPreviousPackageHash s
          let folders2 :=
            if previousPackageHash ≠ [] ∧ previousPackageHash ≠ packageHash
            then
              if previousPackageHash ∈ s.folders then
                deleteFolder s.folders previousPackageHash
              else s.folders
            else s.folders
          (folders2,
           { info with previousPackage := some (info.currentPackage.getD []) })
      let info3 := { step.2 with currentPackage := some packageHash }
      (true, { statusFile := some (some info3), folders := step.1 })

/-- `CodePushPackage::RollbackPackage` (CodePushPackage.cpp:338-360):
`nullptr` record → plain return; otherwise delete the current package's
folder (when it resolves), then run
`info.Insert(L"currentPackage", info.TryLookup(L"previousPackage"))`,
`info.Remove(L"previousPackage")`, and persist.  When the
`previousPackage` key is absent, `TryLookup` yields null — `Insert` of a
null `IJsonValue` cannot leave its key absent — and `Remove` of the
absent key throws `E_BOUNDS`, so the coroutine faults *before*
`UpdateCurrentPackageInfoAsync`: no StatusFile is written.  The boolean
records normal (`true`) versus faulting (`false`) completion; the
`Store` is the on-disk state at completion either way (the folder
deletion precedes the fault). -/
def rollbackPackage (s : Store) : Bool × Store :=
  match getCurrentPackageInfo s with
  | none => (true, s)
  | some info =>
    let folders2 :=
      match getCurrentPackageFolderName s with
      | some h => deleteFolder s.folders h
      | none => s.folders
    match info.previousPackage with
    | none => (false, { statusFile := s.statusFile, folders := folders2 })
    | some prev =>
      (true, { statusFile := some (some ⟨some prev, none⟩),
               folders := folders2 })

/-! ## Lemmas about the path sanitizer -/

theorem trim_eq_rdropWhile (s : List Nat) :
    trimTrailingDotsAndSpaces s = s.rdropWhile isDotOrSpace := rfl

theorem trim_idem (s : List Nat) :
    trimTrailingDotsAndSpaces (trimTrailingDotsAndSpaces s) =
      trimTrailingDotsAndSpaces s := by
  simp only [trim_eq_rdropWhile]
  exact List.rdropWhile_idempotent _ _

theorem trim_isPrefix (s : List Nat) :
    trimTrailingDotsAndSpaces s <+: s := by
  simp only [trim_eq_rdropWhile]
  exact List.rdropWhile_prefix _ _

theorem trim_length_le (s : List Nat) :
    (trimTrailingDotsAndSpaces s).length ≤ s.length :=
  (trim_isPrefix s).length_le

theorem mem_of_mem_trim {c : Nat} {s : List Nat}
    (h : c ∈ trimTrailingDotsAndSpaces s) : c ∈ s :=
  (trim_isPrefix s).subset h

theorem trim_cons_of_fixed {c : Nat} {s : List Nat} (hs : s ≠ [])
    (hfix : trimTrailingDotsAndSpaces s = s) :
    trimTrailingDotsAndSpaces (c :: s) = c :: s := by
  rw [trim_eq_rdropWhile] at hfix ⊢
  rw [List.rdropWhile_eq_self_iff] at hfix ⊢
  intro _
  rw [List.getLast_cons hs]
  exact hfix hs

theorem mem_replaceInvalidChars {c : Nat} {s : List Nat}
    (h : c ∈ replaceInvalidChars s) : isInvalidChar c = false := by
  simp only [replaceInvalidChars, List.mem_map] at h
  obtain ⟨a, -, ha⟩ := h
  by_cases hi : isInvalidChar a = true
  · rw [if_pos hi] at ha
    rw [← ha]
    decide
  · rw [if_neg hi] at ha
    rw [← ha]
    exact Bool.not_eq_true _ |>.mp hi

theorem isReservedDeviceName_underscore (m : List Nat) :
    isReservedDeviceName (95 :: m) = false := by
  simp [isReservedDeviceName, reservedDeviceNames]

theorem isReservedSegment_cons_underscore (s : List Nat) :
    isReservedSegment (95 :: s) = false := by
  unfold isReservedSegment nameWithoutExt
  cases hld : lastDotIndex (95 :: s) with
  | none =>
    simpa using isReservedDeviceName_underscore (s.map towupper)
  | some i =>
    unfold lastDotIndex at hld
    cases hld2 : lastDotIndex s with
    | none =>
      rw [hld2] at hld
      simp at hld
    | some j =>
      rw [hld2] at hld
      simp only [Option.some.injEq] at hld
      rw [← hld]
      simpa using isReservedDeviceName_underscore ((s.take j).map towupper)

/-- Claim C1 (amended): every segment accepted by `SanitizeSegment`
contains none of `< > : " / \ | ? *` and no control character, does not
end in `.` or space (re-trimming it changes nothing), and has length at
most 240; and — amended — when the reserved-name-fixed segment did not
exceed the 240-unit cap (so no truncation took place), it is moreover not
a reserved device name.  (The original claim asserted the reserved-name
property also for truncated segments; the counterexample below refutes
that.) -/
theorem sanitizeSegment_safety (seg out : List Nat)
    (h : sanitizeSegment seg = some out) :
    (∀ c ∈ out, isInvalidChar c = false) ∧
    out ≠ [] ∧
    trimTrailingDotsAndSpaces out = out ∧
    out.length ≤ kMaxSegmentLen ∧
    ((reservedFix (trimTrailingDotsAndSpaces (replaceInvalidChars seg))).length
        ≤ kMaxSegmentLen → isReservedSegment out = false) := by
  unfold sanitizeSegment at h
  by_cases h0 : seg = []
  · rw [if_pos h0] at h
    exact absurd h (by simp)
  · rw [if_neg h0] at h
    simp only at h
    set s2 := trimTrailingDotsAndSpaces (replaceInvalidChars seg) with hs2
    by_cases h1 : s2 = [] ∨ s2 = [46] ∨ s2 = [46, 46]
    · rw [if_pos h1] at h
      exact absurd h (by simp)
    · rw [if_neg h1] at h
      have hs2ne : s2 ≠ [] := fun he => h1 (Or.inl he)
      have hs2fix : trimTrailingDotsAndSpaces s2 = s2 := by
        rw [hs2]
        exact trim_idem _
      have hs2mem : ∀ c ∈ s2, isInvalidChar c = false := by
        intro c hc
        exact mem_replaceInvalidChars (mem_of_mem_trim (hs2 ▸ hc))
      set s3 := reservedFix s2 with hs3
      have hs3ne : s3 ≠ [] := by
        rw [hs3]
        unfold reservedFix
        by_cases hr : isReservedSegment s2 = true
        · rw [if_pos hr]
          simp
        · rw [if_neg hr]
          exact hs2ne
      have hs3fix : trimTrailingDotsAndSpaces s3 = s3 := by
        rw [hs3]
        unfold reservedFix
        by_cases hr : isReservedSegment s2 = true
        · rw [if_pos hr]
          exact trim_cons_of_fixed hs2ne hs2fix
        · rw [if_neg hr]
          exact hs2fix
      have hs3mem : ∀ c ∈ s3, isInvalidChar c = false := by
        intro c hc
        rw [hs3] at hc
        unfold reservedFix at hc
        by_cases hr : isReservedSegment s2 = true
        · rw [if_pos hr] at hc
          rcases List.mem_cons.mp hc with h95 | hc2
          · rw [h95]
            decide
          · exact hs2mem c hc2
        · rw [if_neg hr] at hc
          exact hs2mem c hc
      have hs3res : isReservedSegment s3 = false := by
        rw [hs3]
        unfold reservedFix
        by_cases hr : isReservedSegment s2 = true
        · rw [if_pos hr]
          exact isReservedSegment_cons_underscore s2
        · rw [if_neg hr]
          exact Bool.not_eq_true _ |>.mp hr
      by_cases h2 : kMaxSegmentLen < s3.length
      · rw [if_pos h2] at h
        set s4 := trimTrailingDotsAndSpaces (s3.take kMaxSegmentLen) with hs4
        by_cases h3 : s4 = []
        · rw [if_pos h3] at h
          exact absurd h (by simp)
        · rw [if_neg h3] at h
          have hout : out = s4 := by
            injection h with h
            exact h.symm
          subst hout
          refine ⟨?_, h3, ?_, ?_, ?_⟩
          · intro c hc
            rw [hs4] at hc
            exact hs3mem c ((List.take_sublist _ _).subset (mem_of_mem_trim hc))
          · rw [hs4]
            exact trim_idem _
          · calc s4.length ≤ (s3.take kMaxSegmentLen).length := by
                  rw [hs4]
                  exact trim_length_le _
              _ ≤ kMaxSegmentLen := by
                  simp
          · intro hlen
            exact absurd h2 (by omega)
      · rw [if_neg h2] at h
        have hout : out = s3 := by
          injection h with h
          exact h.symm
        subst hout
        exact ⟨hs3mem, hs3ne, hs3fix, by omega, fun _ => hs3res⟩

set_option maxRecDepth 40000 in
/-- Claim C1 counterexample: the 244-unit input `CON` + 240 `.` + `x`
passes the reserved-name check (its extension-less name is `CON....`,
not reserved), is then truncated to 240 units and re-trimmed, and the
returned segment is exactly the reserved device name `CON`. -/
theorem sanitizeSegment_reserved_counterexample :
    sanitizeSegment ([67, 79, 78] ++ List.replicate 240 46 ++ [120]) =
      some [67, 79, 78] ∧
    isReservedSegment [67, 79, 78] = true := by
  constructor
  · decide
  · decide

/-- Witness for `sanitizeSegment_safety` at the concrete segment `a`. -/
theorem sanitizeSegment_safety_witness :
    (∀ c ∈ ([97] : List Nat), isInvalidChar c = false) ∧
    ([97] : List Nat) ≠ [] ∧
    trimTrailingDotsAndSpaces [97] = [97] ∧
    ([97] : List Nat).length ≤ kMaxSegmentLen ∧
    ((reservedFix (trimTrailingDotsAndSpaces (replaceInvalidChars [97]))).length
        ≤ kMaxSegmentLen → isReservedSegment [97] = false) :=
  sanitizeSegment_safety [97] [97] (by decide)

/-! ## Lemmas about the archive extractor -/

theorem unzipLoop_cons (e : ZipEntry) (rest : List ZipEntry) (t : Nat) :
    unzipLoop (e :: rest) t =
      if entryPassesPreChecks e = false then unzipLoop rest t
      else if kMaxEntryBytes < e.uncompSize then unzipLoop rest t
      else if kMaxTotalBytes < t + e.uncompSize then ([], t)
      else if e.extractOk = false then unzipLoop rest t
      else if e.writeOk = true then
        (e :: (unzipLoop rest (t + e.uncompSize)).1,
          (unzipLoop rest (t + e.uncompSize)).2)
      else unzipLoop rest t := rfl

theorem unzipLoop_written_le (es : List ZipEntry) :
    ∀ t, ∀ e ∈ (unzipLoop es t).1, e.uncompSize ≤ kMaxEntryBytes := by
  induction es with
  | nil =>
    intro t e he
    simp [unzipLoop] at he
  | cons a rest ih =>
    intro t e he
    rw [unzipLoop_cons] at he
    by_cases h1 : entryPassesPreChecks a = false
    · rw [if_pos h1] at he
      exact ih t e he
    · rw [if_neg h1] at he
      by_cases h2 : kMaxEntryBytes < a.uncompSize
      · rw [if_pos h2] at he
        exact ih t e he
      · rw [if_neg h2] at he
        by_cases h3 : kMaxTotalBytes < t + a.uncompSize
        · rw [if_pos h3] at he
          simp at he
        · rw [if_neg h3] at he
          by_cases h4 : a.extractOk = false
          · rw [if_pos h4] at he
            exact ih t e he
          · rw [if_neg h4] at he
            by_cases h5 : a.writeOk = true
            · rw [if_pos h5] at he
              rcases List.mem_cons.mp he with rfl | he2
              · omega
              · exact ih _ e he2
            · rw [if_neg h5] at he
              exact ih t e he

theorem unzipLoop_total_le (es : List ZipEntry) :
    ∀ t, t ≤ kMaxTotalBytes → (unzipLoop es t).2 ≤ kMaxTotalBytes := by
  induction es with
  | nil =>
    intro t ht
    simpa [unzipLoop] using ht
  | cons a rest ih =>
    intro t ht
    rw [unzipLoop_cons]
    by_cases h1 : entryPassesPreChecks a = false
    · rw [if_pos h1]
      exact ih t ht
    · rw [if_neg h1]
      by_cases h2 : kMaxEntryBytes < a.uncompSize
      · rw [if_pos h2]
        exact ih t ht
      · rw [if_neg h2]
        by_cases h3 : kMaxTotalBytes < t + a.uncompSize
        · rw [if_pos h3]
          exact ht
        · rw [if_neg h3]
          by_cases h4 : a.extractOk = false
          · rw [if_pos h4]
            exact ih t ht
          · rw [if_neg h4]
            by_cases h5 : a.writeOk = true
            · rw [if_pos h5]
              exact ih (t + a.uncompSize) (by omega)
            · rw [if_neg h5]
              exact ih t ht

/-- Claim C7: throughout every run of `UnzipAsync`, an entry whose declared
uncompressed size exceeds the 200 MiB per-entry cap is never written (the
written entries all respect the cap, and such an entry is skipped with
iteration continuing), the cumulative number of bytes written never
exceeds the 1 GiB total cap, and an in-limit entry that would cross the
total cap stops the loop: no further entry is processed. -/
theorem unzipAsync_size_caps (entries : List ZipEntry) :
    (∀ e ∈ (unzipAsync entries).1, e.uncompSize ≤ kMaxEntryBytes) ∧
    (unzipAsync entries).2 ≤ kMaxTotalBytes ∧
    (∀ e rest t, entryPassesPreChecks e = true →
      e.uncompSize ≤ kMaxEntryBytes →
      kMaxTotalBytes < t + e.uncompSize →
      unzipLoop (e :: rest) t = ([], t)) ∧
    (∀ e rest t, entryPassesPreChecks e = true →
      kMaxEntryBytes < e.uncompSize →
      unzipLoop (e :: rest) t = unzipLoop rest t) := by
  refine ⟨unzipLoop_written_le entries 0, unzipLoop_total_le entries 0 (by decide),
    ?_, ?_⟩
  · intro e rest t hpre hsize hcross
    rw [unzipLoop_cons, if_neg (by simp [hpre]), if_neg (by omega), if_pos hcross]
  · intro e rest t hpre hbig
    rw [unzipLoop_cons, if_neg (by simp [hpre]), if_pos hbig]

/-- Witness for `unzipAsync_size_caps`: a well-formed 1-byte entry arriving
with the running total already at the cap stops the loop, and a 300 MiB
entry is skipped. -/
theorem unzipAsync_size_caps_witness :
    entryPassesPreChecks ⟨true, false, [97], 1, true, true⟩ = true ∧
    (1 : Nat) ≤ kMaxEntryBytes ∧
    kMaxTotalBytes < kMaxTotalBytes + 1 ∧
    unzipLoop [⟨true, false, [97], 1, true, true⟩] kMaxTotalBytes =
      ([], kMaxTotalBytes) ∧
    kMaxEntryBytes < 300 * 1024 * 1024 ∧
    unzipLoop [⟨true, false, [98], 300 * 1024 * 1024, true, true⟩] 0 =
      unzipLoop [] 0 :=
  ⟨by decide, by decide, by decide,
    (unzipAsync_size_caps []).2.2.1 ⟨true, false, [97], 1, true, true⟩ []
      kMaxTotalBytes (by decide) (by decide) (by decide),
    by decide,
    (unzipAsync_size_caps []).2.2.2 ⟨true, false, [98], 300 * 1024 * 1024, true, true⟩
      [] 0 (by decide) (by decide)⟩

/-! ## Lemmas about full-path file creation -/

theorem walkFolders_append (xs ys : List (List Nat)) :
    walkFolders (xs ++ ys) = walkFolders xs ++ walkFolders ys := by
  induction xs with
  | nil => rfl
  | cons s rest ih =>
    simp only [List.cons_append, walkFolders]
    cases sanitizeSegment s with
    | none => exact ih
    | some s2 => exact congrArg (s2 :: ·) ih

/-- Claim C8: `CreateFileFromPathAsync` fails with the invalid-entry-name
error if and only if the final (file-name) segment is rejected by the
sanitizer; a rejected intermediate segment never causes failure — the
created folder chain is the same as if the segment were absent, so the
remaining segments land one level higher. -/
theorem createFileFromPath_final_segment (dirSegs : List (List Nat))
    (fileSeg : List Nat) :
    (createFileFromPath dirSegs fileSeg = none ↔
      sanitizeSegment fileSeg = none) ∧
    (∀ pre bad post, dirSegs = pre ++ bad :: post →
      sanitizeSegment bad = none →
      walkFolders dirSegs = walkFolders (pre ++ post)) := by
  constructor
  · unfold createFileFromPath
    cases hf : sanitizeSegment fileSeg with
    | none => simp
    | some f => simp
  · rintro pre bad post rfl hbad
    rw [walkFolders_append, walkFolders_append]
    simp only [walkFolders, hbad]

/-- Witness for `createFileFromPath_final_segment`: path `a/../b/f` — the
intermediate `..` segment is skipped (the chain collapses to `a/b`) and
the operation does not fail because the file name `f` is accepted. -/
theorem createFileFromPath_final_segment_witness :
    ([[97], [46, 46], [98]] : List (List Nat)) = [[97]] ++ [46, 46] :: [[98]] ∧
    sanitizeSegment [46, 46] = none ∧
    walkFolders [[97], [46, 46], [98]] = walkFolders ([[97]] ++ [[98]]) ∧
    (createFileFromPath [[97], [46, 46], [98]] [102] = none ↔
      sanitizeSegment [102] = none) :=
  ⟨rfl, by decide,
    (createFileFromPath_final_segment [[97], [46, 46], [98]] [102]).2
      [[97]] [46, 46] [[98]] rfl (by decide),
    (createFileFromPath_final_segment [[97], [46, 46], [98]] [102]).1⟩

/-! ## The wrapper-folder strip decision -/

/-- Claim C10 (amended): the merger descends into a child before copying
if and only if the source root contains exactly one child item, that item
is a folder, and its name equals the marker name `CodePush`
*case-insensitively* (`_wcsicmp`); in every other case copying starts at
the source root itself.  (The original claim required the name to be
exactly `CodePush`; the counterexample below shows a lowercase `codepush`
also matches.) -/
theorem maybeStripDescends_iff (items : List Entry) :
    (maybeStripDescends items = true ↔
      ∃ n cs, items = [Entry.dir n cs] ∧ wcsicmpEq n codePushName = true) ∧
    (maybeStripDescends items = false →
      maybeStripTopCodePush items = items) ∧
    (∀ n cs, items = [Entry.dir n cs] → wcsicmpEq n codePushName = true →
      maybeStripTopCodePush items = cs) := by
  refine ⟨⟨?_, ?_⟩, ?_, ?_⟩
  · intro h
    cases items with
    | nil => exact absurd h (by simp [maybeStripDescends])
    | cons e rest =>
      cases rest with
      | nil =>
        cases e with
        | file n c => exact absurd h (by simp [maybeStripDescends])
        | dir n cs => exact ⟨n, cs, rfl, h⟩
      | cons e2 rest2 => exact absurd h (by simp [maybeStripDescends])
  · rintro ⟨n, cs, rfl, hw⟩
    simpa [maybeStripDescends] using hw
  · intro h
    cases items with
    | nil => rfl
    | cons e rest =>
      cases rest with
      | nil =>
        cases e with
        | file n c => rfl
        | dir n cs =>
          have hw : wcsicmpEq n codePushName = false := by
            simpa [maybeStripDescends] using h
          simp [maybeStripTopCodePush, hw]
      | cons e2 rest2 => cases e <;> rfl
  · rintro n cs rfl hw
    simp [maybeStripTopCodePush, hw]

/-- Claim C10 counterexample: a sole child folder named `codepush`
(lowercase — a *different name* than the marker `CodePush`) still causes
the merger to descend, because the comparison is case-insensitive. -/
theorem maybeStripDescends_counterexample :
    maybeStripDescends
      [Entry.dir [99, 111, 100, 101, 112, 117, 115, 104] []] = true ∧
    [99, 111, 100, 101, 112, 117, 115, 104] ≠ codePushName ∧
    maybeStripTopCodePush
      [Entry.dir [99, 111, 100, 101, 112, 117, 115, 104] []] = [] := by
  exact ⟨by decide, by decide, rfl⟩

/-- Witness for `maybeStripDescends_iff`: the empty root is not descended
into, and a sole `CodePush` folder child is. -/
theorem maybeStripDescends_iff_witness :
    maybeStripTopCodePush ([] : List Entry) = [] ∧
    ([Entry.dir codePushName []] : List Entry) = [Entry.dir codePushName []] ∧
    wcsicmpEq codePushName codePushName = true ∧
    maybeStripTopCodePush [Entry.dir codePushName []] = [] :=
  ⟨(maybeStripDescends_iff []).2.1 (by decide), rfl, by decide,
    (maybeStripDescends_iff [Entry.dir codePushName []]).2.2 codePushName []
      rfl (by decide)⟩

/-! ## Lemmas about the package metadata store -/

theorem mem_deleteFolder {a h : List Nat} {fs : List (List Nat)} :
    a ∈ deleteFolder fs h ↔ a ∈ fs ∧ a ≠ h := by
  simp [deleteFolder]

theorem deleteFolder_not_mem {h : List Nat} {fs : List (List Nat)}
    (hn : h ∉ fs) : deleteFolder fs h = fs := by
  unfold deleteFolder
  rw [List.filter_eq_self]
  intro a ha
  simp only [Bool.not_eq_true', decide_eq_false_iff_not]
  rintro rfl
  exact hn ha

theorem getCurrentPackageInfo_parsed {s : Store} {info : PackageInfo}
    (hs : s.statusFile = some (some info)) :
    getCurrentPackageInfo s = some info := by
  simp [getCurrentPackageInfo, hs]

theorem getPreviousPackageHash_parsed {s : Store} {info : PackageInfo}
    (hs : s.statusFile = some (some info)) :
    getPreviousPackageHash s = info.previousPackage.getD [] := by
  simp only [getPreviousPackageHash, getCurrentPackageInfo_parsed hs]
  cases info.previousPackage <;> rfl

/-- `InstallPackageAsync` in the rotating (`removePendingUpdate = false`,
not-already-installed) case, fully evaluated. -/
theorem installPackage_rotate {s : Store} {info : PackageInfo}
    (p : List Nat) (hs : s.statusFile = some (some info))
    (hne : info.currentPackage ≠ some p) :
    installPackage s p false =
      (true,
       { statusFile :=
           some (some ⟨some p, some (info.currentPackage.getD [])⟩),
         folders :=
           if info.previousPackage.getD [] ≠ [] ∧
               info.previousPackage.getD [] ≠ p then
             deleteFolder s.folders (info.previousPackage.getD [])
           else s.folders }) := by
  unfold installPackage
  rw [getCurrentPackageInfo_parsed hs]
  simp only [if_neg hne, Bool.false_eq_true, if_false,
    getPreviousPackageHash_parsed hs]
  by_cases hcond : info.previousPackage.getD [] ≠ [] ∧
      info.previousPackage.getD [] ≠ p
  · rw [if_pos hcond, if_pos hcond]
    by_cases hmem : info.previousPackage.getD [] ∈ s.folders
    · rw [if_pos hmem]
    · rw [if_neg hmem, deleteFolder_not_mem hmem]
  · rw [if_neg hcond, if_neg hcond]

/-- Claim C3: for a parsed record and a descriptor hash different from
`currentPackage`, `Install(descriptor, removePendingUpdate = false)`
returns success, deletes the folder named by the old `previousPackage`
exactly when that hash is non-empty and differs from the incoming hash,
and persists — in the single `UpdateCurrentPackageInfoAsync` write — the
record with `previousPackage` set to the old `currentPackage` value and
`currentPackage` set to the incoming hash. -/
theorem installPackage_rotates (s : Store) (info : PackageInfo) (p : List Nat)
    (hs : s.statusFile = some (some info))
    (hne : info.currentPackage ≠ some p) :
    (installPackage s p false).1 = true ∧
    (installPackage s p false).2.statusFile =
      some (some ⟨some p, some (info.currentPackage.getD [])⟩) ∧
    (installPackage s p false).2.folders =
      (if info.previousPackage.getD [] ≠ [] ∧
          info.previousPackage.getD [] ≠ p then
        deleteFolder s.folders (info.previousPackage.getD [])
      else s.folders) := by
  rw [installPackage_rotate p hs hne]
  exact ⟨rfl, rfl, rfl⟩

/-- Witness for `installPackage_rotates`: current `[1]`, previous `[2]`,
incoming `[3]`; the folder `[2]` is deleted and the record rotates. -/
theorem installPackage_rotates_witness :
    (installPackage ⟨some (some ⟨some [1], some [2]⟩), [[1], [2], [3]]⟩
        [3] false).1 = true ∧
    (installPackage ⟨some (some ⟨some [1], some [2]⟩), [[1], [2], [3]]⟩
        [3] false).2.statusFile =
      some (some ⟨some [3], some ((some [1] : Option (List Nat)).getD [])⟩) ∧
    (installPackage ⟨some (some ⟨some [1], some [2]⟩), [[1], [2], [3]]⟩
        [3] false).2.folders =
      (if ((some [2] : Option (List Nat)).getD []) ≠ [] ∧
          ((some [2] : Option (List Nat)).getD []) ≠ [3] then
        deleteFolder [[1], [2], [3]] ((some [2] : Option (List Nat)).getD [])
      else [[1], [2], [3]]) :=
  installPackage_rotates ⟨some (some ⟨some [1], some [2]⟩), [[1], [2], [3]]⟩
    ⟨some [1], some [2]⟩ [3] rfl (by decide)

/-- Claim C4: when the parsed record's `currentPackage` already equals the
descriptor's hash, Install succeeds and changes nothing — for both values
of `removePendingUpdate` — and a second `Install(P)` immediately after a
successful `Install(P, false)` is likewise a no-op. -/
theorem installPackage_idempotent (s : Store) (info : PackageInfo)
    (p : List Nat) (hs : s.statusFile = some (some info)) :
    (info.currentPackage = some p →
      ∀ b, installPackage s p b = (true, s)) ∧
    (∀ b, installPackage (installPackage s p false).2 p b =
      (true, (installPackage s p false).2)) := by
  have hstop : ∀ (s2 : Store) (info2 : PackageInfo),
      s2.statusFile = some (some info2) → info2.currentPackage = some p →
      ∀ b, installPackage s2 p b = (true, s2) := by
    intro s2 info2 hs2 hcur2 b
    simp [installPackage, getCurrentPackageInfo_parsed hs2, hcur2]
  refine ⟨fun hcur b => hstop s info hs hcur b, fun b => ?_⟩
  by_cases hcur : info.currentPackage = some p
  · rw [hstop s info hs hcur false]
    exact hstop s info hs hcur b
  · rw [installPackage_rotate p hs hcur]
    exact hstop _ ⟨some p, some (info.currentPackage.getD [])⟩ rfl rfl b

/-- Witness for `installPackage_idempotent` at a concrete store whose
current package is already `[7]`. -/
theorem installPackage_idempotent_witness :
    ((⟨some [7], none⟩ : PackageInfo).currentPackage = some [7] →
      ∀ b, installPackage ⟨some (some ⟨some [7], none⟩), [[7]]⟩ [7] b =
        (true, ⟨some (some ⟨some [7], none⟩), [[7]]⟩)) ∧
    (∀ b, installPackage
        (installPackage ⟨some (some ⟨some [7], none⟩), [[7]]⟩ [7] false).2
        [7] b =
      (true,
        (installPackage ⟨some (some ⟨some [7], none⟩), [[7]]⟩ [7] false).2)) :=
  installPackage_idempotent ⟨some (some ⟨some [7], none⟩), [[7]]⟩
    ⟨some [7], none⟩ [7] rfl

/-- Claim C5: from a parsed record with `currentPackage = C`, installing a
distinct non-empty hash `P` whose folder exists and then rolling back
completes normally, restores `currentPackage` to `C`, and deletes `P`'s
package folder. -/
theorem install_then_rollback (s : Store) (info : PackageInfo)
    (c p : List Nat) (hs : s.statusFile = some (some info))
    (hcur : info.currentPackage = some c) (hpc : p ≠ c) (hpnil : p ≠ [])
    (hpfold : p ∈ s.folders) :
    (rollbackPackage (installPackage s p false).2).1 = true ∧
    getCurrentPackageHash
      (rollbackPackage (installPackage s p false).2).2 = c ∧
    p ∉ (rollbackPackage (installPackage s p false).2).2.folders := by
  have hne : info.currentPackage ≠ some p := by
    rw [hcur]
    intro he
    exact hpc (Option.some.injEq _ _ ▸ he).symm
  rw [installPackage_rotate p hs hne]
  set prev := info.previousPackage.getD [] with hprev
  set folders1 :=
    (if prev ≠ [] ∧ prev ≠ p then deleteFolder s.folders prev
     else s.folders) with hfolders1
  have hpf1 : p ∈ folders1 := by
    rw [hfolders1]
    by_cases hcond : prev ≠ [] ∧ prev ≠ p
    · rw [if_pos hcond]
      exact mem_deleteFolder.mpr ⟨hpfold, fun he => hcond.2 he.symm⟩
    · rw [if_neg hcond]
      exact hpfold
  have hs1 : (⟨some (some ⟨some p, some (info.currentPackage.getD [])⟩),
      folders1⟩ : Store).statusFile =
      some (some ⟨some p, some (info.currentPackage.getD [])⟩) := rfl
  unfold rollbackPackage
  rw [getCurrentPackageInfo_parsed hs1]
  have hfn : getCurrentPackageFolderName
      ⟨some (some ⟨some p, some (info.currentPackage.getD [])⟩), folders1⟩ =
      some p := by
    unfold getCurrentPackageFolderName
    rw [getCurrentPackageInfo_parsed hs1]
    simp only [Option.getD_some]
    rw [if_neg hpnil, if_pos hpf1]
  rw [hfn]
  refine ⟨rfl, ?_, ?_⟩
  · simp [getCurrentPackageHash, getCurrentPackageInfo, hcur]
  · intro hmem
    exact (mem_deleteFolder.mp hmem).2 rfl

/-- Witness for `install_then_rollback`: current `[1]`, install `[3]`
(folder present), roll back; the rollback completes normally, current is
`[1]` again and folder `[3]` is gone. -/
theorem install_then_rollback_witness :
    (rollbackPackage
      (installPackage ⟨some (some ⟨some [1], none⟩), [[1], [3]]⟩
        [3] false).2).1 = true ∧
    getCurrentPackageHash
      (rollbackPackage
        (installPackage ⟨some (some ⟨some [1], none⟩), [[1], [3]]⟩
          [3] false).2).2 = [1] ∧
    ([3] : List Nat) ∉
      (rollbackPackage
        (installPackage ⟨some (some ⟨some [1], none⟩), [[1], [3]]⟩
          [3] false).2).2.folders :=
  install_then_rollback ⟨some (some ⟨some [1], none⟩), [[1], [3]]⟩
    ⟨some [1], none⟩ [1] [3] rfl rfl (by decide) (by decide) (by decide)

/-- Claim C6 (amended): the "nothing to roll back" early return of
`RollbackPackage` fires only when the record reads as `nullptr` — a
StatusFile that exists but does not parse; then rollback is a silent
no-op.  When *no StatusFile exists at all*, the record reads as an empty
`JsonObject`, so rollback proceeds past the early return: it deletes no
folder and writes no StatusFile — the on-disk state is exactly as it
was — but it does not complete silently: `Remove` of the absent
`previousPackage` key throws `E_BOUNDS` before the persist and the
exception escapes to the caller. -/
theorem rollbackPackage_no_record (s : Store) :
    (s.statusFile = some none → rollbackPackage s = (true, s)) ∧
    (s.statusFile = none → rollbackPackage s = (false, s)) := by
  constructor
  · intro hcorrupt
    unfold rollbackPackage
    simp [getCurrentPackageInfo, hcorrupt]
  · intro hmissing
    have hinfo : getCurrentPackageInfo s = some ⟨none, none⟩ := by
      simp [getCurrentPackageInfo, hmissing]
    have hfn : getCurrentPackageFolderName s = none := by
      unfold getCurrentPackageFolderName
      rw [hinfo]
      simp
    unfold rollbackPackage
    rw [hinfo, hfn]

/-- Claim C6 counterexample: with no StatusFile ever written, Rollback is
*not* the silent no-op the claim describes: the missing-file read
produces an empty record rather than the `nullptr` that triggers the
early return, so rollback proceeds and faults before the persist — its
state effects are empty, but unlike the genuine early-return no-op (the
corrupt-file case, which completes normally) the call surfaces an
error. -/
theorem rollbackPackage_missing_counterexample :
    (⟨none, []⟩ : Store).statusFile = none ∧
    (rollbackPackage ⟨none, []⟩).1 = false ∧
    (rollbackPackage ⟨none, []⟩).2 = ⟨none, []⟩ ∧
    rollbackPackage ⟨some none, []⟩ = (true, ⟨some none, []⟩) := by
  exact ⟨rfl, rfl, rfl, rfl⟩

/-- Witness for `rollbackPackage_no_record`: a corrupt StatusFile gives
the silent early return; a missing one gives the faulting
pass-through. -/
theorem rollbackPackage_no_record_witness :
    rollbackPackage ⟨some none, [[1]]⟩ = (true, ⟨some none, [[1]]⟩) ∧
    rollbackPackage ⟨none, [[1]]⟩ = (false, ⟨none, [[1]]⟩) :=
  ⟨(rollbackPackage_no_record ⟨some none, [[1]]⟩).1 rfl,
    (rollbackPackage_no_record ⟨none, [[1]]⟩).2 rfl⟩

/-- Claim C9 (amended): read-only lookups report "no package" for both a
missing StatusFile and one whose content does not parse; but the two
mutating operations distinguish them — a missing StatusFile lets Install
proceed from a fresh-start (empty) record, while an unparsable one makes
Install return `false` without touching any state and makes Rollback
return without touching any state. -/
theorem metadata_read_failures (s : Store) :
    (s.statusFile = none ∨ s.statusFile = some none →
      getCurrentPackageHash s = [] ∧ getPreviousPackageHash s = [] ∧
      getCurrentPackageFolderName s = none) ∧
    (s.statusFile = some none →
      (∀ p b, installPackage s p b = (false, s)) ∧
      rollbackPackage s = (true, s)) ∧
    (s.statusFile = none → ∀ p b,
      (installPackage s p b).1 = true ∧
      (installPackage s p b).2.statusFile =
        some (some ⟨some p, if b then none else some []⟩) ∧
      (installPackage s p b).2.folders = s.folders) := by
  refine ⟨?_, ?_, ?_⟩
  · intro h
    rcases h with hm | hc
    · refine ⟨?_, ?_, ?_⟩
      · simp [getCurrentPackageHash, getCurrentPackageInfo, hm]
      · simp [getPreviousPackageHash, getCurrentPackageInfo, hm]
      · simp [getCurrentPackageFolderName, getCurrentPackageInfo, hm]
    · refine ⟨?_, ?_, ?_⟩
      · simp [getCurrentPackageHash, getCurrentPackageInfo, hc]
      · simp [getPreviousPackageHash, getCurrentPackageInfo, hc]
      · simp [getCurrentPackageFolderName, getCurrentPackageInfo, hc]
  · intro hc
    have hinfo : getCurrentPackageInfo s = none := by
      simp [getCurrentPackageInfo, hc]
    constructor
    · intro p b
      unfold installPackage
      rw [hinfo]
    · unfold rollbackPackage
      rw [hinfo]
  · intro hm p b
    have hinfo : getCurrentPackageInfo s = some ⟨none, none⟩ := by
      simp [getCurrentPackageInfo, hm]
    have hfn : getCurrentPackageFolderName s = none := by
      unfold getCurrentPackageFolderName
      rw [hinfo]
      simp
    have hprev : getPreviousPackageHash s = [] := by
      simp [getPreviousPackageHash, hinfo]
    unfold installPackage
    rw [hinfo]
    simp only [Option.some.injEq, reduceCtorEq, if_false, hfn, hprev]
    cases b
    · simp
    · simp

/-- Claim C9 counterexample: Install on a corrupt StatusFile fails
(returns `false`, changing nothing) instead of proceeding from a
fresh-start state the way it does when the StatusFile is merely
missing. -/
theorem install_corrupt_counterexample :
    installPackage ⟨some none, []⟩ [104] false = (false, ⟨some none, []⟩) ∧
    (installPackage ⟨none, []⟩ [104] false).1 = true := by
  exact ⟨rfl, rfl⟩

/-- Witness for `metadata_read_failures` at concrete stores. -/
theorem metadata_read_failures_witness :
    (getCurrentPackageHash ⟨none, [[5]]⟩ = [] ∧
      getPreviousPackageHash ⟨none, [[5]]⟩ = [] ∧
      getCurrentPackageFolderName ⟨none, [[5]]⟩ = none) ∧
    ((∀ p b, installPackage ⟨some none, [[5]]⟩ p b =
        (false, ⟨some none, [[5]]⟩)) ∧
      rollbackPackage ⟨some none, [[5]]⟩ = (true, ⟨some none, [[5]]⟩)) ∧
    ((installPackage ⟨none, [[5]]⟩ [104] false).1 = true ∧
      (installPackage ⟨none, [[5]]⟩ [104] false).2.statusFile =
        some (some ⟨some [104], if false then none else some []⟩) ∧
      (installPackage ⟨none, [[5]]⟩ [104] false).2.folders = [[5]]) :=
  ⟨(metadata_read_failures ⟨none, [[5]]⟩).1 (Or.inl rfl),
    (metadata_read_failures ⟨some none, [[5]]⟩).2.1 rfl,
    (metadata_read_failures ⟨none, [[5]]⟩).2.2 rfl [104] false⟩

/-! ## Lemmas about folder copying and the diff overlay -/

theorem getItem_nil (n : List Nat) : getItem [] n = none := rfl

theorem getItem_cons (e : Entry) (es : List Entry) (n : List Nat) :
    getItem (e :: es) n = if e.name = n then some e else getItem es n := by
  by_cases h : e.name = n
  · rw [if_pos h]
    exact List.find?_cons_of_pos _ (by simp [h])
  · rw [if_neg h]
    exact List.find?_cons_of_neg _ (by simp [h])

theorem getItem_eq_some {es : List Entry} {n : List Nat} {e : Entry}
    (h : getItem es n = some e) : e ∈ es ∧ e.name = n :=
  ⟨List.mem_of_find?_eq_some h, by simpa using List.find?_some h⟩

theorem removeItem_cons (e : Entry) (es : List Entry) (n : List Nat) :
    removeItem (e :: es) n =
      if e.name = n then removeItem es n else e :: removeItem es n := by
  by_cases h : e.name = n
  · simp [removeItem, h]
  · simp [removeItem, h]

theorem entryNames_setFile_map (es : List Entry) (n : List Nat) (c : Nat) :
    entryNames (es.map (fun e => if e.name = n then Entry.file n c else e)) =
      entryNames es := by
  unfold entryNames
  rw [List.map_map]
  apply List.map_congr_left
  intro e _
  show Entry.name (if e.name = n then Entry.file n c else e) = Entry.name e
  by_cases h : e.name = n
  · rw [if_pos h, h]
    rfl
  · rw [if_neg h]

theorem entryNames_setFile {es d : List Entry} {n : List Nat} {c : Nat}
    (h : setFile es n c = some d) :
    n ∈ entryNames d ∧ ∀ x ∈ entryNames es, x ∈ entryNames d := by
  unfold setFile at h
  cases hg : getItem es n with
  | none =>
    rw [hg] at h
    injection h with h
    subst h
    constructor
    · simp [entryNames, Entry.name]
    · intro x hx
      unfold entryNames at hx ⊢
      rw [List.map_append]
      exact List.mem_append_left _ hx
  | some e =>
    rw [hg] at h
    cases e with
    | dir n2 cs => exact absurd h (by simp)
    | file n2 c2 =>
      injection h with h
      subst h
      obtain ⟨hmem, hname⟩ := getItem_eq_some hg
      rw [entryNames_setFile_map]
      constructor
      · have : (Entry.file n2 c2).name ∈ entryNames es := by
          exact List.mem_map_of_mem _ hmem
        rwa [hname] at this
      · intro x hx
        exact hx

theorem copyFileEntry_flat (dest : List Entry) (n : List Nat) (c : Nat) :
    n ∈ entryNames (copyFileEntry dest ([], n, c)) ∧
    ∀ x ∈ entryNames dest, x ∈ entryNames (copyFileEntry dest ([], n, c)) := by
  have hput : putFileAt dest [] n c = setFile dest n c := rfl
  unfold copyFileEntry
  rw [hput]
  cases hs : setFile dest n c with
  | none =>
    unfold setFile at hs
    cases hg : getItem dest n with
    | none =>
      rw [hg] at hs
      exact absurd hs (by simp)
    | some e =>
      rw [hg] at hs
      cases e with
      | file n2 c2 => exact absurd hs (by simp)
      | dir n2 cs =>
        obtain ⟨hmem, hname⟩ := getItem_eq_some hg
        constructor
        · have : (Entry.dir n2 cs).name ∈ entryNames dest :=
            List.mem_map_of_mem _ hmem
          rwa [hname] at this
        · intro x hx
          exact hx
  | some d => exact entryNames_setFile hs

theorem foldl_copyFileEntry_preserves
    (ts : List (List (List Nat) × List Nat × Nat)) :
    (∀ t ∈ ts, t.1 = []) →
    ∀ dest x, x ∈ entryNames dest →
      x ∈ entryNames (ts.foldl copyFileEntry dest) := by
  induction ts with
  | nil =>
    intro _ dest x hx
    exact hx
  | cons t rest ih =>
    intro hts dest x hx
    rw [List.foldl_cons]
    apply ih (fun t2 ht2 => hts t2 (List.mem_cons_of_mem _ ht2))
    obtain ⟨t1, n, c⟩ := t
    have ht1 : t1 = [] := hts (t1, n, c) (List.mem_cons_self _ _)
    subst ht1
    exact (copyFileEntry_flat dest n c).2 x hx

theorem maybeStrip_flat {es : List Entry} (h : isFlatFolder es = true) :
    maybeStripTopCodePush es = es := by
  cases es with
  | nil => rfl
  | cons e rest =>
    cases rest with
    | nil =>
      cases e with
      | file n c => rfl
      | dir n cs =>
        exact absurd h (by simp [isFlatFolder, Entry.isFile])
    | cons e2 rest2 => cases e <;> rfl

theorem filesOfFolder_cons (e : Entry) (rest : List Entry) :
    filesOfFolder (e :: rest) = filesOfEntry e ++ filesOfFolder rest := rfl

theorem filesOfFolder_flat_dirs {es : List Entry}
    (h : isFlatFolder es = true) : ∀ t ∈ filesOfFolder es, t.1 = [] := by
  induction es with
  | nil =>
    intro t ht
    exact absurd ht (by simp [filesOfFolder, filesOfEntry.filesOfList])
  | cons e rest ih =>
    intro t ht
    have he : e.isFile = true := by
      simp [isFlatFolder, List.all_cons] at h
      exact h.1
    have hrest : isFlatFolder rest = true := by
      simp [isFlatFolder, List.all_cons] at h
      simpa [isFlatFolder] using h.2
    cases e with
    | dir n cs => exact absurd he (by simp [Entry.isFile])
    | file n c =>
      rw [filesOfFolder_cons] at ht
      rcases List.mem_append.mp ht with hl | hr
      · have : t = ([], n, c) := by
          simpa [filesOfEntry] using hl
        rw [this]
      · exact ih hrest t hr

theorem names_survive_foldl (src : List Entry) :
    isFlatFolder src = true →
    ∀ dest n, n ∈ entryNames src →
      n ∈ entryNames ((filesOfFolder src).foldl copyFileEntry dest) := by
  induction src with
  | nil =>
    intro _ dest n hn
    exact absurd hn (by simp [entryNames])
  | cons e rest ih =>
    intro hflat dest n hn
    have he : e.isFile = true := by
      simp [isFlatFolder, List.all_cons] at hflat
      exact hflat.1
    have hrest : isFlatFolder rest = true := by
      simp [isFlatFolder, List.all_cons] at hflat
      simpa [isFlatFolder] using hflat.2
    cases e with
    | dir n2 cs => exact absurd he (by simp [Entry.isFile])
    | file n2 c =>
      rw [filesOfFolder_cons]
      have hfe : filesOfEntry (Entry.file n2 c) = [([], n2, c)] := rfl
      rw [hfe, List.singleton_append, List.foldl_cons]
      rcases List.mem_cons.mp hn with heq | hmem
      · have heq2 : n = n2 := by
          simpa [Entry.name] using heq
        subst heq2
        exact foldl_copyFileEntry_preserves _ (filesOfFolder_flat_dirs hrest)
          _ n (copyFileEntry_flat dest n c).1
      · exact ih hrest (copyFileEntry dest ([], n2, c)) n hmem

theorem names_survive_flat_copy (src : List Entry)
    (hflat : isFlatFolder src = true) (dest : List Entry) (n : List Nat)
    (hn : n ∈ entryNames src) :
    n ∈ entryNames (copyEntriesInFolder src dest) := by
  unfold copyEntriesInFolder
  rw [maybeStrip_flat hflat]
  exact names_survive_foldl src hflat dest n hn

theorem Entry.name_file (n : List Nat) (c : Nat) :
    (Entry.file n c).name = n := rfl

theorem removeItem_nil (n : List Nat) : removeItem [] n = [] := rfl

theorem copyFileEntry_new (dest : List Entry) (n : List Nat) (c : Nat)
    (h : getItem dest n = none) :
    copyFileEntry dest ([], n, c) = dest ++ [Entry.file n c] := by
  have h1 : putFileAt dest [] n c = setFile dest n c := rfl
  unfold copyFileEntry
  rw [h1]
  unfold setFile
  rw [h]

/-- Claim C2: in the diff-overlay flow, a previous installed package with
exactly files `{a, b}`, a diff manifest whose `deletedFiles` list names
`b`, and extracted new content with exactly `{c}` yield a package folder
with exactly `{a, c}`; and since the order is seed → delete → overlay, a
file delivered in the (flat) new content always survives into the result,
whatever the deletion list says — deletions apply only to inherited
content. -/
theorem diffOverlay_exact (a b c m : List Nat) (ca cb cc cm : Nat)
    (hab : a ≠ b) (hac : a ≠ c) (hmc : m ≠ c) :
    downloadDiffApply [Entry.file a ca, Entry.file b cb]
        [Entry.file m cm, Entry.file c cc] m [b] =
      [Entry.file a ca, Entry.file c cc] ∧
    (∀ cur unzip mn ds n,
      isFlatFolder (removeItem unzip mn) = true →
      n ∈ entryNames (removeItem unzip mn) →
      n ∈ entryNames (downloadDiffApply cur unzip mn ds)) := by
  constructor
  · have hseed : copyEntriesInFolder [Entry.file a ca, Entry.file b cb] [] =
        [Entry.file a ca, Entry.file b cb] := by
      unfold copyEntriesInFolder
      have hstrip :
          maybeStripTopCodePush [Entry.file a ca, Entry.file b cb] =
            [Entry.file a ca, Entry.file b cb] := rfl
      rw [hstrip]
      have hfiles : filesOfFolder [Entry.file a ca, Entry.file b cb] =
          [([], a, ca), ([], b, cb)] := rfl
      rw [hfiles, List.foldl_cons, List.foldl_cons, List.foldl_nil]
      have h1 : copyFileEntry [] ([], a, ca) = [Entry.file a ca] := rfl
      rw [h1, copyFileEntry_new _ _ _
        (by simp [getItem_cons, getItem_nil, Entry.name_file, hab])]
      rfl
    have hdel : getItem [Entry.file a ca, Entry.file b cb] b =
        some (Entry.file b cb) := by
      simp [getItem_cons, Entry.name_file, hab]
    have hrem : removeItem [Entry.file a ca, Entry.file b cb] b =
        [Entry.file a ca] := by
      simp [removeItem_cons, removeItem_nil, Entry.name_file, hab]
    have hdelstep : deleteIfPresent [Entry.file a ca, Entry.file b cb] b =
        [Entry.file a ca] := by
      unfold deleteIfPresent
      rw [hdel, hrem]
    have hunzip : removeItem [Entry.file m cm, Entry.file c cc] m =
        [Entry.file c cc] := by
      simp [removeItem_cons, removeItem_nil, Entry.name_file, Ne.symm hmc]
    have hoverlay :
        copyEntriesInFolder [Entry.file c cc] [Entry.file a ca] =
          [Entry.file a ca, Entry.file c cc] := by
      unfold copyEntriesInFolder
      have hstrip2 : maybeStripTopCodePush [Entry.file c cc] =
          [Entry.file c cc] := rfl
      rw [hstrip2]
      have hf : filesOfFolder [Entry.file c cc] = [([], c, cc)] := rfl
      rw [hf, List.foldl_cons, List.foldl_nil, copyFileEntry_new _ _ _
        (by simp [getItem_cons, getItem_nil, Entry.name_file, hac])]
      rfl
    show copyEntriesInFolder
        (removeItem [Entry.file m cm, Entry.file c cc] m)
        (List.foldl deleteIfPresent
          (copyEntriesInFolder [Entry.file a ca, Entry.file b cb] []) [b]) =
      [Entry.file a ca, Entry.file c cc]
    rw [hseed, List.foldl_cons, List.foldl_nil, hdelstep, hunzip, hoverlay]
  · intro cur unzip mn ds n hflat hn
    exact names_survive_flat_copy (removeItem unzip mn) hflat
      (List.foldl deleteIfPresent (copyEntriesInFolder cur []) ds) n hn

/-- Witness for `diffOverlay_exact`: packages `{a, b}` + delete `b` + new
`{c}` give `{a, c}`; and the new file `c` survives even when the deletion
list names `c` itself. -/
theorem diffOverlay_exact_witness :
    downloadDiffApply [Entry.file [97] 1, Entry.file [98] 2]
        [Entry.file [109] 4, Entry.file [99] 3] [109] [[98]] =
      [Entry.file [97] 1, Entry.file [99] 3] ∧
    isFlatFolder
      (removeItem [Entry.file [109] 4, Entry.file [99] 3] [109]) = true ∧
    [99] ∈ entryNames
      (removeItem [Entry.file [109] 4, Entry.file [99] 3] [109]) ∧
    [99] ∈ entryNames
      (downloadDiffApply [] [Entry.file [109] 4, Entry.file [99] 3]
        [109] [[99]]) :=
  ⟨(diffOverlay_exact [97] [98] [99] [109] 1 2 3 4
      (by decide) (by decide) (by decide)).1,
    by decide, by decide,
    (diffOverlay_exact [97] [98] [99] [109] 1 2 3 4
      (by decide) (by decide) (by decide)).2 []
      [Entry.file [109] 4, Entry.file [99] 3] [109] [[99]] [99]
      (by decide) (by decide)⟩
